import Mathlib

/-!
Verification of the traversal-and-aggregation engine of the
`surviving-json-jungle` repository.

The repository ships two implementations of the same six analytical
operations over nested expedition records:

* `src/run_polars.py`  — Polars dataframe pipelines,
* `src/run_duckdb.py`  — DuckDB SQL queries.

This file gives a shallow embedding of both implementations over an
explicit record model (a batch is a `List Expedition`) and proves, or
refutes, the frozen behavioural claims about them.

Modelling conventions, used throughout:

* Machine integers (`UInt64`/`UBIGINT` counts) are modelled as `Nat`;
  no operation in scope can overflow or underflow them (the only
  subtraction, `tagged - population`, is guarded by a `tagged > population`
  filter).
* Floating-point ratios are modelled exactly: finite quotients live in `ℚ`
  and the IEEE `+inf` produced by both backends for `x / 0` with `x > 0`
  is the `⊤` of `WithTop ℚ`.  Rounding to two decimals is `round2` below.
* String comparison in both backends (Polars `sort`, SQL `ORDER BY`,
  Python `<`) is lexicographic on code points; it is embedded by the
  executable `strLt` / `strLe` below, which agree with that order.
* SQL `GROUP BY` and Polars `group_by` produce groups in an unspecified
  order; groups are modelled in `List.dedup` key order.  Every property
  proved or refuted about grouped results (key sets, per-key values,
  sortedness of an explicitly sorted output, totals) is independent of
  that choice.
* Polars `explode` / `.list.explode()` turns an *empty* list into a single
  null element, while DuckDB `unnest` of an empty list yields no rows; the
  Polars embedding keeps this distinction (`explodeSpeciesPolars` returns
  `Option Species` elements) wherever a downstream result can observe it.
-/

namespace Jungle

/-- One sighting event: a dated, activity-labelled observation.  The
location pair carried by the source schema is never read by any operation
in scope and is omitted (§6 of the spec sanctions dropping unused fields). -/
structure Sighting where
  date : String
  activity : String
deriving DecidableEq, Repr

/-- Tracking block of one species: the tagged count plus the sighting list
(`tracking.tagged`, `tracking.sightings` in both schemas). -/
structure Tracking where
  tagged : Nat
  sightings : List Sighting
deriving DecidableEq, Repr

/-- One species entry of a reserve: `name`, `population`, `tracking`. -/
structure Species where
  name : String
  population : Nat
  tracking : Tracking
deriving DecidableEq, Repr

/-- A reserve: its name and the ordered species list.  Location and
environmental conditions are unused by every operation in scope. -/
structure Reserve where
  name : String
  species : List Species
deriving DecidableEq, Repr

/-- One expedition record of the input batch, as both schemas declare it:
`expedition_id`, `start_date`, `end_date` are strings (dates arrive as
unparsed strings and are compared as such), plus the owned reserve. -/
structure Expedition where
  expedition_id : String
  start_date : String
  end_date : String
  reserve : Reserve
deriving DecidableEq, Repr

/-! ### Code-point string order

Both backends compare strings lexicographically by code point.  The
comparison is embedded by structural recursion on the character list so
that concrete instances reduce inside the kernel. -/

/-- Strict lexicographic order on character lists, by code point. -/
def charsLt : List Char → List Char → Bool
  | [], [] => false
  | [], _ :: _ => true
  | _ :: _, [] => false
  | a :: as, b :: bs => decide (a.toNat < b.toNat) || (a.toNat == b.toNat && charsLt as bs)

/-- Reflexive lexicographic order on character lists, by code point. -/
def charsLe : List Char → List Char → Bool
  | [], _ => true
  | _ :: _, [] => false
  | a :: as, b :: bs => decide (a.toNat < b.toNat) || (a.toNat == b.toNat && charsLe as bs)

/-- Strict code-point order on strings. -/
def strLt (s t : String) : Bool := charsLt s.data t.data

/-- Reflexive code-point order on strings. -/
def strLe (s t : String) : Bool := charsLe s.data t.data

/-- Lexicographic order on equal-length string tuples (encoded as lists):
used for multi-column sort keys. -/
def strListLe : List String → List String → Bool
  | [], _ => true
  | _ :: _, [] => false
  | a :: as, b :: bs => strLt a b || (a == b && strListLe as bs)

theorem charsLe_total : ∀ as bs : List Char, charsLe as bs = true ∨ charsLe bs as = true
  | [], _ => Or.inl rfl
  | _ :: _, [] => Or.inr rfl
  | a :: as, b :: bs => by
    simp only [charsLe, Bool.or_eq_true, decide_eq_true_eq, Bool.and_eq_true, beq_iff_eq]
    rcases Nat.lt_trichotomy a.toNat b.toNat with h | h | h
    · exact Or.inl (Or.inl h)
    · rcases charsLe_total as bs with ih | ih
      · exact Or.inl (Or.inr ⟨h, ih⟩)
      · exact Or.inr (Or.inr ⟨h.symm, ih⟩)
    · exact Or.inr (Or.inl h)

theorem charsLe_trans :
    ∀ as bs cs : List Char,
      charsLe as bs = true → charsLe bs cs = true → charsLe as cs = true
  | [], _, _, _, _ => rfl
  | _ :: _, [], _, h, _ => by simp [charsLe] at h
  | _ :: _, _ :: _, [], _, h => by simp [charsLe] at h
  | a :: as, b :: bs, c :: cs, h1, h2 => by
    simp only [charsLe, Bool.or_eq_true, decide_eq_true_eq, Bool.and_eq_true,
      beq_iff_eq] at h1 h2 ⊢
    rcases h1 with h1 | ⟨e1, r1⟩
    · rcases h2 with h2 | ⟨e2, _⟩
      · exact Or.inl (h1.trans h2)
      · exact Or.inl (e2 ▸ h1)
    · rcases h2 with h2 | ⟨e2, r2⟩
      · exact Or.inl (e1 ▸ h2)
      · exact Or.inr ⟨e1.trans e2, charsLe_trans as bs cs r1 r2⟩

theorem charsLt_irrefl : ∀ as : List Char, charsLt as as = false
  | [] => rfl
  | a :: as => by
    simp only [charsLt, Bool.or_eq_false_iff, Bool.and_eq_false_iff, decide_eq_false_iff_not]
    exact ⟨Nat.lt_irrefl _, Or.inr (charsLt_irrefl as)⟩

theorem charsLt_trans :
    ∀ as bs cs : List Char,
      charsLt as bs = true → charsLt bs cs = true → charsLt as cs = true
  | [], [], _, h, _ => by simp [charsLt] at h
  | [], _ :: _, [], _, h => by simp [charsLt] at h
  | [], _ :: _, _ :: _, _, _ => rfl
  | _ :: _, [], _, h, _ => by simp [charsLt] at h
  | _ :: _, _ :: _, [], _, h => by simp [charsLt] at h
  | a :: as, b :: bs, c :: cs, h1, h2 => by
    simp only [charsLt, Bool.or_eq_true, decide_eq_true_eq, Bool.and_eq_true,
      beq_iff_eq] at h1 h2 ⊢
    rcases h1 with h1 | ⟨e1, r1⟩
    · rcases h2 with h2 | ⟨e2, _⟩
      · exact Or.inl (h1.trans h2)
      · exact Or.inl (e2 ▸ h1)
    · rcases h2 with h2 | ⟨e2, r2⟩
      · exact Or.inl (e1 ▸ h2)
      · exact Or.inr ⟨e1.trans e2, charsLt_trans as bs cs r1 r2⟩

theorem char_toNat_inj {a b : Char} (h : a.toNat = b.toNat) : a = b :=
  Char.eq_of_val_eq (UInt32.eq_of_toBitVec_eq (BitVec.eq_of_toNat_eq h))

theorem string_data_inj {a b : String} (h : a.data = b.data) : a = b := by
  cases a; cases b; exact congrArg String.mk h

theorem charsLt_trichotomy :
    ∀ as bs : List Char, charsLt as bs = true ∨ as = bs ∨ charsLt bs as = true
  | [], [] => Or.inr (Or.inl rfl)
  | [], _ :: _ => Or.inl rfl
  | _ :: _, [] => Or.inr (Or.inr rfl)
  | a :: as, b :: bs => by
    simp only [charsLt, Bool.or_eq_true, decide_eq_true_eq, Bool.and_eq_true, beq_iff_eq]
    rcases Nat.lt_trichotomy a.toNat b.toNat with h | h | h
    · exact Or.inl (Or.inl h)
    · have hab : a = b := char_toNat_inj h
      rcases charsLt_trichotomy as bs with ih | ih | ih
      · exact Or.inl (Or.inr ⟨h, ih⟩)
      · exact Or.inr (Or.inl (by rw [hab, ih]))
      · exact Or.inr (Or.inr (Or.inr ⟨h.symm, ih⟩))
    · exact Or.inr (Or.inr (Or.inl h))

theorem strLt_trans {a b c : String} (h1 : strLt a b = true) (h2 : strLt b c = true) :
    strLt a c = true :=
  charsLt_trans _ _ _ h1 h2

theorem strLt_irrefl (a : String) : strLt a a = false := charsLt_irrefl _

theorem strLt_trichotomy (a b : String) : strLt a b = true ∨ a = b ∨ strLt b a = true := by
  rcases charsLt_trichotomy a.data b.data with h | h | h
  · exact Or.inl h
  · refine Or.inr (Or.inl ?_)
    exact string_data_inj h
  · exact Or.inr (Or.inr h)

theorem strLe_total (a b : String) : strLe a b = true ∨ strLe b a = true :=
  charsLe_total _ _

theorem strLe_trans {a b c : String} (h1 : strLe a b = true) (h2 : strLe b c = true) :
    strLe a c = true :=
  charsLe_trans _ _ _ h1 h2

theorem strListLe_total : ∀ as bs : List String, strListLe as bs = true ∨ strListLe bs as = true
  | [], _ => Or.inl rfl
  | _ :: _, [] => Or.inr rfl
  | a :: as, b :: bs => by
    simp only [strListLe, Bool.or_eq_true, Bool.and_eq_true, beq_iff_eq]
    rcases strLt_trichotomy a b with h | h | h
    · exact Or.inl (Or.inl h)
    · rcases strListLe_total as bs with ih | ih
      · exact Or.inl (Or.inr ⟨h, ih⟩)
      · exact Or.inr (Or.inr ⟨h.symm, ih⟩)
    · exact Or.inr (Or.inl h)

theorem strListLe_trans :
    ∀ as bs cs : List String,
      strListLe as bs = true → strListLe bs cs = true → strListLe as cs = true
  | [], _, _, _, _ => rfl
  | _ :: _, [], _, h, _ => by simp [strListLe] at h
  | _ :: _, _ :: _, [], _, h => by simp [strListLe] at h
  | a :: as, b :: bs, c :: cs, h1, h2 => by
    simp only [strListLe, Bool.or_eq_true, Bool.and_eq_true, beq_iff_eq] at h1 h2 ⊢
    rcases h1 with h1 | ⟨e1, r1⟩
    · rcases h2 with h2 | ⟨e2, _⟩
      · exact Or.inl (strLt_trans h1 h2)
      · exact Or.inl (e2 ▸ h1)
    · rcases h2 with h2 | ⟨e2, r2⟩
      · exact Or.inl (e1 ▸ h2)
      · exact Or.inr ⟨e1.trans e2, strListLe_trans as bs cs r1 r2⟩

theorem charsLe_refl : ∀ as : List Char, charsLe as as = true
  | [] => rfl
  | a :: as => by
    simp only [charsLe, Bool.or_eq_true, decide_eq_true_eq, Bool.and_eq_true, beq_iff_eq]
    exact Or.inr ⟨trivial, charsLe_refl as⟩

theorem charsLe_of_lt : ∀ as bs : List Char, charsLt as bs = true → charsLe as bs = true
  | [], _, _ => rfl
  | _ :: _, [], h => by simp [charsLt] at h
  | a :: as, b :: bs, h => by
    simp only [charsLt, Bool.or_eq_true, decide_eq_true_eq, Bool.and_eq_true,
      beq_iff_eq] at h
    simp only [charsLe, Bool.or_eq_true, decide_eq_true_eq, Bool.and_eq_true, beq_iff_eq]
    rcases h with h | ⟨e, r⟩
    · exact Or.inl h
    · exact Or.inr ⟨e, charsLe_of_lt as bs r⟩

theorem strLe_refl (a : String) : strLe a a = true := charsLe_refl _

theorem strLe_of_lt {a b : String} (h : strLt a b = true) : strLe a b = true :=
  charsLe_of_lt _ _ h

theorem strLe_of_not_lt {a b : String} (h : strLt a b = false) : strLe b a = true := by
  rcases strLt_trichotomy a b with h2 | h2 | h2
  · rw [h2] at h; cases h
  · rw [h2]; exact strLe_refl b
  · exact strLe_of_lt h2

/-! ### Sorting primitives

Both backends sort with an unspecified-but-deterministic algorithm; the
embedding uses the stable `List.insertionSort`.  Every property proved
below about a sorted output (sortedness, membership, permutation) holds
for any correct sort. -/

/-- Stable sort by a Bool comparator: the embedding of a multi-column
ascending dataframe/SQL sort. -/
def sortBy {α : Type} (le : α → α → Bool) (l : List α) : List α :=
  l.insertionSort (fun a b => le a b)

theorem sortBy_perm {α : Type} (le : α → α → Bool) (l : List α) : (sortBy le l).Perm l :=
  List.perm_insertionSort _ l

theorem sortBy_mem {α : Type} (le : α → α → Bool) (l : List α) (a : α) :
    a ∈ sortBy le l ↔ a ∈ l :=
  (sortBy_perm le l).mem_iff

theorem sortBy_sorted {α : Type} (le : α → α → Bool)
    (htr : ∀ a b c, le a b = true → le b c = true → le a c = true)
    (hto : ∀ a b, le a b = true ∨ le b a = true) (l : List α) :
    (sortBy le l).Sorted (fun a b => le a b = true) := by
  haveI : IsTotal α (fun a b => le a b = true) := ⟨hto⟩
  haveI : IsTrans α (fun a b => le a b = true) := ⟨htr⟩
  exact List.sorted_insertionSort _ l

/-- Descending sort by a key into a linear order: the embedding of the
`ORDER BY key DESC` / `sort(key, descending=True)` steps. -/
def sortOnKeyDesc {α κ : Type} [LinearOrder κ] (key : α → κ) (l : List α) : List α :=
  l.insertionSort (fun a b => key b ≤ key a)

theorem sortOnKeyDesc_perm {α κ : Type} [LinearOrder κ] (key : α → κ) (l : List α) :
    (sortOnKeyDesc key l).Perm l :=
  List.perm_insertionSort _ l

theorem sortOnKeyDesc_mem {α κ : Type} [LinearOrder κ] (key : α → κ) (l : List α) (a : α) :
    a ∈ sortOnKeyDesc key l ↔ a ∈ l :=
  (sortOnKeyDesc_perm key l).mem_iff

theorem sortOnKeyDesc_sorted {α κ : Type} [LinearOrder κ] (key : α → κ) (l : List α) :
    (sortOnKeyDesc key l).Sorted (fun a b => key b ≤ key a) := by
  haveI : IsTotal α (fun a b => key b ≤ key a) := ⟨fun a b => le_total (key b) (key a)⟩
  haveI : IsTrans α (fun a b => key b ≤ key a) := ⟨fun _ _ _ h h2 => le_trans h2 h⟩
  exact List.sorted_insertionSort _ l

/-! ### Grouping primitives -/

/-- Grouping with a per-group aggregate.  SQL `GROUP BY` and Polars
`group_by` leave the group order unspecified; the embedding enumerates the
groups in `List.dedup` key order.  All properties proved or refuted about
grouped results are independent of that enumeration order. -/
def grouped {ρ κ β : Type} [BEq κ] [LawfulBEq κ] [DecidableEq κ]
    (key : ρ → κ) (agg : List ρ → β)
    (rows : List ρ) : List (κ × β) :=
  ((rows.map key).dedup).map (fun k => (k, agg (rows.filter (fun r => key r == k))))

theorem grouped_keys {ρ κ β : Type} [BEq κ] [LawfulBEq κ] [DecidableEq κ]
    (key : ρ → κ) (agg : List ρ → β)
    (rows : List ρ) : (grouped key agg rows).map Prod.fst = (rows.map key).dedup := by
  simp [grouped, List.map_map, Function.comp_def]

theorem grouped_keys_nodup {ρ κ β : Type} [BEq κ] [LawfulBEq κ] [DecidableEq κ]
    (key : ρ → κ) (agg : List ρ → β)
    (rows : List ρ) : ((grouped key agg rows).map Prod.fst).Nodup := by
  rw [grouped_keys]; exact List.nodup_dedup _

theorem mem_grouped {ρ κ β : Type} [BEq κ] [LawfulBEq κ] [DecidableEq κ]
    (key : ρ → κ) (agg : List ρ → β)
    (rows : List ρ) (k : κ) (b : β) :
    (k, b) ∈ grouped key agg rows ↔
      k ∈ rows.map key ∧ b = agg (rows.filter (fun r => key r == k)) := by
  unfold grouped
  rw [List.mem_map]
  constructor
  · rintro ⟨a, ha, heq⟩
    have h1 : a = k := congrArg Prod.fst heq
    subst h1
    have h2 : agg (rows.filter (fun r => key r == a)) = b := congrArg Prod.snd heq
    exact ⟨List.mem_dedup.mp ha, h2.symm⟩
  · rintro ⟨hk, rfl⟩
    exact ⟨k, List.mem_dedup.mpr hk, rfl⟩

theorem sum_over_keys {ρ κ : Type} [BEq κ] [LawfulBEq κ] (key : ρ → κ) (f : ρ → Nat) :
    ∀ (ks : List κ) (rows : List ρ), ks.Nodup → (∀ r ∈ rows, key r ∈ ks) →
      (ks.map (fun k => ((rows.filter (fun r => key r == k)).map f).sum)).sum
        = (rows.map f).sum
  | [], rows, _, hcov => by
    have hrows : rows = [] := by
      cases rows with
      | nil => rfl
      | cons r rs => exact absurd (hcov r (List.mem_cons_self r rs)) (List.not_mem_nil _)
    subst hrows; rfl
  | k :: ks, rows, hnd, hcov => by
    have hknot : k ∉ ks := (List.nodup_cons.mp hnd).1
    have hnd2 : ks.Nodup := (List.nodup_cons.mp hnd).2
    have hsplit :
        ((rows.filter (fun r => key r == k)).map f).sum
            + ((rows.filter (fun r => !(key r == k))).map f).sum
          = (rows.map f).sum := by
      have hperm :
          (rows.filter (fun r => key r == k) ++ rows.filter (fun r => !(key r == k))).Perm rows :=
        List.filter_append_perm _ rows
      calc
        ((rows.filter (fun r => key r == k)).map f).sum
            + ((rows.filter (fun r => !(key r == k))).map f).sum
            = (((rows.filter (fun r => key r == k)
                ++ rows.filter (fun r => !(key r == k))).map f)).sum := by
              rw [List.map_append, List.sum_append]
        _ = (rows.map f).sum := (hperm.map f).sum_eq
    have hcongr : ∀ k2 ∈ ks,
        rows.filter (fun r => key r == k2)
          = (rows.filter (fun r => !(key r == k))).filter (fun r => key r == k2) := by
      intro k2 hk2
      rw [List.filter_filter]
      apply List.filter_congr
      intro r _
      by_cases h : key r = k2
      · have hne2 : k2 ≠ k := by
          intro e; exact hknot (e ▸ hk2)
        have hne : key r ≠ k := by rw [h]; exact hne2
        simp [h, hne, hne2]
      · simp [h]
    have hcov2 : ∀ r ∈ rows.filter (fun r => !(key r == k)), key r ∈ ks := by
      intro r hr
      have hr2 := List.mem_filter.mp hr
      have hne : key r ≠ k := by simpa using hr2.2
      rcases List.mem_cons.mp (hcov r hr2.1) with h | h
      · exact absurd h hne
      · exact h
    have ih := sum_over_keys key f ks (rows.filter (fun r => !(key r == k))) hnd2 hcov2
    calc
      ((k :: ks).map (fun k2 =>
          ((rows.filter (fun r => key r == k2)).map f).sum)).sum
          = ((rows.filter (fun r => key r == k)).map f).sum
            + (ks.map (fun k2 => ((rows.filter (fun r => key r == k2)).map f).sum)).sum := by
            rw [List.map_cons, List.sum_cons]
      _ = ((rows.filter (fun r => key r == k)).map f).sum
            + (ks.map (fun k2 =>
              (((rows.filter (fun r => !(key r == k))).filter
                (fun r => key r == k2)).map f).sum)).sum := by
            have hmap :
                ks.map (fun k2 => ((rows.filter (fun r => key r == k2)).map f).sum)
                  = ks.map (fun k2 =>
                    (((rows.filter (fun r => !(key r == k))).filter
                      (fun r => key r == k2)).map f).sum) :=
              List.map_congr_left (fun k2 hk2 => by rw [hcongr k2 hk2])
            rw [hmap]
      _ = ((rows.filter (fun r => key r == k)).map f).sum
            + ((rows.filter (fun r => !(key r == k))).map f).sum := by rw [ih]
      _ = (rows.map f).sum := hsplit

theorem grouped_sum {ρ κ : Type} [BEq κ] [LawfulBEq κ] [DecidableEq κ]
    (key : ρ → κ) (f : ρ → Nat)
    (rows : List ρ) :
    ((grouped key (fun g => (g.map f).sum) rows).map Prod.snd).sum = (rows.map f).sum := by
  unfold grouped
  rw [List.map_map]
  exact sum_over_keys key f _ rows (List.nodup_dedup _)
    (fun r hr => List.mem_dedup.mpr (List.mem_map_of_mem key hr))

theorem filter_keyed_flatMap {α β κ : Type} [BEq κ] [LawfulBEq κ]
    (l : List α) (key : α → κ) (f : α → List β) (k : κ) :
    ((l.flatMap (fun a => (f a).map (fun b => (key a, b)))).filter
        (fun r => r.1 == k)).map Prod.snd
      = (l.filter (fun a => key a == k)).flatMap f := by
  induction l with
  | nil => rfl
  | cons a l ih =>
    rw [List.flatMap_cons, List.filter_append, List.map_append, ih, List.filter_cons]
    by_cases h : key a = k
    · have h1 : ((f a).map (fun b => (key a, b))).filter (fun r => r.1 == k)
          = (f a).map (fun b => (key a, b)) := by
        apply List.filter_eq_self.mpr
        intro r hr
        rcases List.mem_map.mp hr with ⟨b, _, rfl⟩
        simpa using h
      rw [h1]
      simp [h, List.map_map, Function.comp_def]
    · have h1 : ((f a).map (fun b => (key a, b))).filter (fun r => r.1 == k) = [] := by
        apply List.filter_eq_nil_iff.mpr
        intro r hr
        rcases List.mem_map.mp hr with ⟨b, _, rfl⟩
        simpa using h
      rw [h1]
      simp [h]

theorem length_filter_filterMap_keyed {κ β : Type} [BEq κ] [LawfulBEq κ] [DecidableEq κ]
    (key : β → κ) :
    ∀ ks : List κ, ks.Nodup → ∀ f : κ → Option β,
      (∀ k r, f k = some r → key r = k) → ∀ n : κ,
      ((ks.filterMap f).filter (fun r => key r == n)).length
        = if n ∈ ks ∧ (f n).isSome then 1 else 0
  | [], _, f, _, n => by simp
  | k :: ks, hnd, f, hkey, n => by
    have hknot : k ∉ ks := (List.nodup_cons.mp hnd).1
    have ih := length_filter_filterMap_keyed key ks (List.nodup_cons.mp hnd).2 f hkey n
    rw [List.filterMap_cons]
    cases hf : f k with
    | none =>
      rw [ih]
      by_cases hn : n = k
      · subst hn
        simp [hf, hknot]
      · simp [hn]
    | some r =>
      have hkr : key r = k := hkey k r hf
      rw [List.filter_cons]
      by_cases hn : n = k
      · subst hn
        have hzero : ((ks.filterMap f).filter (fun r => key r == n)).length = 0 := by
          rw [ih]
          simp [hknot]
        simp [hkr, hzero, hf]
      · have hne : ¬(key r == n) = true := by
          simp [hkr]
          exact fun e => hn e.symm
        rw [if_neg hne, ih]
        simp [hn]

/-! ### Value counts and the rank picker -/

/-- Occurrence counts of each distinct value of a string sequence (Polars
`value_counts`, DuckDB `GROUP BY activity` with `COUNT(*)`); both backends
leave the row order unspecified, modelled in dedup order. -/
def valueCounts (xs : List String) : List (String × Nat) :=
  xs.dedup.map (fun a => (a, xs.count a))

theorem mem_valueCounts (xs : List String) (a : String) (c : Nat) :
    (a, c) ∈ valueCounts xs ↔ a ∈ xs ∧ c = xs.count a := by
  unfold valueCounts
  rw [List.mem_map]
  constructor
  · rintro ⟨b, hb, heq⟩
    have h1 : b = a := congrArg Prod.fst heq
    subst h1
    exact ⟨List.mem_dedup.mp hb, (congrArg Prod.snd heq).symm⟩
  · rintro ⟨ha, rfl⟩
    exact ⟨a, List.mem_dedup.mpr ha, rfl⟩

theorem valueCounts_eq_nil (xs : List String) : valueCounts xs = [] ↔ xs = [] := by
  unfold valueCounts
  rw [List.map_eq_nil_iff, List.dedup_eq_nil]

/-- Choice step of the DuckDB window rank: the challenger wins when its
count is strictly larger, or equal with a lexicographically smaller
activity (`ORDER BY cnt DESC, activity`). -/
def pickBetter (best q : String × Nat) : String × Nat :=
  if best.2 < q.2 || (q.2 == best.2 && strLt q.1 best.1) then q else best

/-- The unique `rank() = 1` row of a value-count list under
`ORDER BY cnt DESC, activity`, when the list is non-empty. -/
def pickTop : List (String × Nat) → Option (String × Nat)
  | [] => none
  | p :: ps => some (ps.foldl pickBetter p)

/-- Preference order realised by the rank: at least as good means a larger
count, or an equal count with a lexicographically no-larger value. -/
def pref (a b : String × Nat) : Prop :=
  b.2 < a.2 ∨ (a.2 = b.2 ∧ strLe a.1 b.1 = true)

theorem pref_refl (a : String × Nat) : pref a a := Or.inr ⟨rfl, strLe_refl _⟩

theorem pref_trans {a b c : String × Nat} (h1 : pref a b) (h2 : pref b c) : pref a c := by
  rcases h1 with h1 | ⟨e1, s1⟩
  · rcases h2 with h2 | ⟨e2, _⟩
    · exact Or.inl (lt_trans h2 h1)
    · exact Or.inl (e2 ▸ h1)
  · rcases h2 with h2 | ⟨e2, s2⟩
    · exact Or.inl (e1.symm ▸ h2)
    · exact Or.inr ⟨e1.trans e2, strLe_trans s1 s2⟩

theorem pickBetter_cases (best q : String × Nat) :
    pickBetter best q = best ∨ pickBetter best q = q := by
  unfold pickBetter
  split
  · exact Or.inr rfl
  · exact Or.inl rfl

theorem pickBetter_pref_left (best q : String × Nat) : pref (pickBetter best q) best := by
  unfold pickBetter
  split
  · rename_i h
    simp only [Bool.or_eq_true, decide_eq_true_eq, Bool.and_eq_true, beq_iff_eq] at h
    rcases h with h | ⟨e, s⟩
    · exact Or.inl h
    · exact Or.inr ⟨e, strLe_of_lt s⟩
  · exact pref_refl best

theorem pickBetter_pref_right (best q : String × Nat) : pref (pickBetter best q) q := by
  unfold pickBetter
  split
  · exact pref_refl q
  · rename_i h
    simp only [Bool.or_eq_true, decide_eq_true_eq, Bool.and_eq_true, beq_iff_eq,
      not_or, not_and] at h
    obtain ⟨h1, h2⟩ := h
    rcases lt_or_eq_of_le (Nat.le_of_not_lt h1) with h3 | h3
    · exact Or.inl h3
    · refine Or.inr ⟨h3.symm, ?_⟩
      have h4 : strLt q.1 best.1 = false := by
        rcases Bool.eq_false_or_eq_true (strLt q.1 best.1) with h4 | h4
        · exact absurd h4 (h2 h3)
        · exact h4
      exact strLe_of_not_lt h4

theorem foldl_pickBetter_mem :
    ∀ (ps : List (String × Nat)) (p : String × Nat), ps.foldl pickBetter p ∈ p :: ps
  | [], p => List.mem_cons_self p []
  | q :: ps, p => by
    rw [List.foldl_cons]
    rcases List.mem_cons.mp (foldl_pickBetter_mem ps (pickBetter p q)) with h | h
    · rw [h]
      rcases pickBetter_cases p q with h2 | h2 <;> rw [h2] <;> simp
    · exact List.mem_cons.mpr (Or.inr (List.mem_cons.mpr (Or.inr h)))

theorem foldl_pickBetter_pref :
    ∀ (ps : List (String × Nat)) (p q : String × Nat),
      q ∈ p :: ps → pref (ps.foldl pickBetter p) q
  | [], p, q, hq => by
    rcases List.mem_cons.mp hq with h | h
    · subst h; exact pref_refl q
    · cases h
  | r :: ps, p, q, hq => by
    rw [List.foldl_cons]
    have hself : pref (ps.foldl pickBetter (pickBetter p r)) (pickBetter p r) :=
      foldl_pickBetter_pref ps (pickBetter p r) _ (List.mem_cons_self _ _)
    rcases List.mem_cons.mp hq with h | h
    · subst h
      exact pref_trans hself (pickBetter_pref_left q r)
    · rcases List.mem_cons.mp h with h2 | h2
      · subst h2
        exact pref_trans hself (pickBetter_pref_right p q)
      · exact foldl_pickBetter_pref ps (pickBetter p r) q (List.mem_cons.mpr (Or.inr h2))

theorem pickTop_isSome (l : List (String × Nat)) : (pickTop l).isSome ↔ l ≠ [] := by
  cases l with
  | nil => simp [pickTop]
  | cons p ps => simp [pickTop]

theorem pickTop_mem {l : List (String × Nat)} {p : String × Nat}
    (h : pickTop l = some p) : p ∈ l := by
  cases l with
  | nil => cases h
  | cons a ps =>
    have h2 : ps.foldl pickBetter a = p := by
      simpa [pickTop] using h
    rw [← h2]
    exact foldl_pickBetter_mem ps a

theorem pickTop_pref {l : List (String × Nat)} {p : String × Nat}
    (h : pickTop l = some p) : ∀ q ∈ l, pref p q := by
  cases l with
  | nil => cases h
  | cons a ps =>
    have h2 : ps.foldl pickBetter a = p := by
      simpa [pickTop] using h
    intro q hq
    rw [← h2]
    exact foldl_pickBetter_pref ps a q hq

/-! ### Maximum of a count list -/

theorem le_foldr_max : ∀ l : List Nat, ∀ x ∈ l, x ≤ l.foldr max 0
  | a :: l, x, hx => by
    rw [List.foldr_cons]
    rcases List.mem_cons.mp hx with h | h
    · subst h; exact le_max_left _ _
    · exact le_trans (le_foldr_max l x h) (le_max_right _ _)

theorem foldr_max_le : ∀ (l : List Nat) (c : Nat), (∀ x ∈ l, x ≤ c) → l.foldr max 0 ≤ c
  | [], c, _ => Nat.zero_le c
  | a :: l, c, h => by
    rw [List.foldr_cons]
    exact max_le (h a (List.mem_cons_self a l))
      (foldr_max_le l c (fun x hx => h x (List.mem_cons.mpr (Or.inr hx))))

theorem foldr_max_mem : ∀ l : List Nat, l ≠ [] → l.foldr max 0 ∈ l
  | [a], _ => by simp
  | a :: b :: l, _ => by
    rw [List.foldr_cons]
    rcases max_cases a ((b :: l).foldr max 0) with ⟨h, _⟩ | ⟨h, _⟩
    · rw [h]; exact List.mem_cons_self _ _
    · rw [h]
      exact List.mem_cons.mpr (Or.inr (foldr_max_mem (b :: l) (by simp)))

/-! ### Ratio representation -/

/-- Rounding to two decimal places over exact rationals, the idealisation
of `round(x, 2)` / `ROUND(x, 2)` applied by the backends to the
`tagged / population` float. -/
def round2 (q : ℚ) : ℚ := (round (q * 100) : ℚ) / 100

/-- The `ratio_tagged` value: both backends produce the IEEE `+inf` for a
positive count divided by a zero population (`⊤` here), and the rounded
quotient otherwise. -/
def ratioTagged (tagged population : Nat) : WithTop ℚ :=
  if population = 0 then ⊤
  else ((round2 ((tagged : ℚ) / (population : ℚ))) : WithTop ℚ)

/-! ### The embedded operations -/

/-- All species rows of the batch in batch order: the DuckDB
`unnest(reserve.species)` row set. -/
def allSpecies (batch : List Expedition) : List Species :=
  batch.flatMap (fun e => e.reserve.species)

/-- Polars `.list.explode()` on the species column: a non-empty list
yields its elements, an empty list yields one null element
(`src/run_polars.py`, used by `compute_species_population` and
`determine_tracking_issues_by_species`). -/
def explodeSpeciesPolars (batch : List Expedition) : List (Option Species) :=
  batch.flatMap (fun e =>
    match e.reserve.species with
    | [] => [none]
    | ss => ss.map some)

/-- Distinct count of expedition ids, Polars backend
(`src/run_polars.py:compute_unique_expedition_count`): `n_unique` is the
number of unique values of the column. -/
def compute_unique_expedition_count_polars (batch : List Expedition) : Nat :=
  ((batch.map Expedition.expedition_id).dedup).length

/-- Distinct count of expedition ids, DuckDB backend
(`src/run_duckdb.py:compute_unique_expedition_count`):
`COUNT(DISTINCT expedition_id)` is the cardinality of the set of values.
The Python wrapper's `0 if result is None` branch is dead — an aggregate
query always returns one row — and is not modelled. -/
def compute_unique_expedition_count_duckdb (batch : List Expedition) : Nat :=
  (batch.map Expedition.expedition_id).toFinset.card

/-- Names of the species list of one expedition. -/
def speciesNames (e : Expedition) : List String :=
  e.reserve.species.map Species.name

/-- Unique species count per expedition, Polars backend
(`src/run_polars.py:compute_unique_species_count_per_expedition`): the
`select` keeps one output row per input row (no explode is involved) and
`list.n_unique` of an empty species list is 0. -/
def compute_unique_species_count_per_expedition_polars
    (batch : List Expedition) : List (String × Nat) :=
  batch.map (fun e => (e.expedition_id, (speciesNames e).dedup.length))

/-- Species-name rows `(expedition_id, species_name)` of the DuckDB inner
query `unnest(reserve.species).name`. -/
def speciesNameRows (batch : List Expedition) : List (String × String) :=
  batch.flatMap (fun e => (speciesNames e).map (fun n => (e.expedition_id, n)))

/-- Unique species count per expedition, DuckDB backend
(`src/run_duckdb.py:compute_unique_species_count_per_expedition`):
`unnest` of an empty species list yields no rows, so `GROUP BY
expedition_id` produces no group for such an expedition. -/
def compute_unique_species_count_per_expedition_duckdb
    (batch : List Expedition) : List (String × Nat) :=
  grouped Prod.fst (fun g => ((g.map Prod.snd).dedup).length) (speciesNameRows batch)

/-- Name/population projection of the exploded species rows on the Polars
side (nulls stay null). -/
def popRowsPolars (batch : List Expedition) : List (Option String × Option Nat) :=
  (explodeSpeciesPolars batch).map
    (fun os => (os.map Species.name, os.map Species.population))

/-- Species population totals, Polars backend
(`src/run_polars.py:compute_species_population`): explode the species
lists (an empty list yields a null element, hence a null-named group),
project name and population, group by name, sum population with nulls
contributing zero, sort descending by the summed population. -/
def compute_species_population_polars (batch : List Expedition) :
    List (Option String × Nat) :=
  sortOnKeyDesc Prod.snd
    (grouped Prod.fst (fun g => (g.map (fun r => r.2.getD 0)).sum) (popRowsPolars batch))

/-- Name/population projection of the unnested species rows on the DuckDB
side. -/
def popRowsDuckdb (batch : List Expedition) : List (String × Nat) :=
  (allSpecies batch).map (fun s => (s.name, s.population))

/-- Species population totals, DuckDB backend
(`src/run_duckdb.py:compute_species_population`). -/
def compute_species_population_duckdb (batch : List Expedition) :
    List (String × Nat) :=
  sortOnKeyDesc Prod.snd
    (grouped Prod.fst (fun g => (g.map Prod.snd).sum) (popRowsDuckdb batch))

/-- One row of the tracking-issue output: columns
`name, population, tagged, ratio_tagged, excess_count`. -/
structure TrackingIssueRow where
  name : String
  population : Nat
  tagged : Nat
  ratio_tagged : WithTop ℚ
  excess_count : Nat
deriving DecidableEq

/-- Output row built for a species that passed the
`population < tagged` filter. -/
def trackingIssueRow (s : Species) : TrackingIssueRow :=
  ⟨s.name, s.population, s.tracking.tagged,
    ratioTagged s.tracking.tagged s.population,
    s.tracking.tagged - s.population⟩

/-- Tracking-issue detection, Polars backend
(`src/run_polars.py:determine_tracking_issues_by_species`): explode
species (an empty list yields an all-null row for which the
`population < tagged` comparison is null and which the filter therefore
drops), filter strictly, compute ratio and excess, sort descending by
`ratio_tagged`. -/
def determine_tracking_issues_by_species_polars (batch : List Expedition) :
    List TrackingIssueRow :=
  sortOnKeyDesc TrackingIssueRow.ratio_tagged
    ((explodeSpeciesPolars batch).filterMap (fun os =>
      match os with
      | none => none
      | some s =>
        if s.population < s.tracking.tagged then some (trackingIssueRow s) else none))

/-- Tracking-issue detection, DuckDB backend
(`src/run_duckdb.py:determine_tracking_issues_by_species`). -/
def determine_tracking_issues_by_species_duckdb (batch : List Expedition) :
    List TrackingIssueRow :=
  sortOnKeyDesc TrackingIssueRow.ratio_tagged
    (((allSpecies batch).filter
      (fun s => s.population < s.tracking.tagged)).map trackingIssueRow)

/-- Per-expedition flattened activity sequence: species order then
sighting order (the Polars `list.eval(...).flatten()` column and the two
chained DuckDB `unnest`s). -/
def sightedActivities (e : Expedition) : List String :=
  (e.reserve.species.map (fun s => s.tracking.sightings.map Sighting.activity)).flatten

/-- Polars `list.count_matches(target_activity)` over the flattened
activity sequence. -/
def expeditionMatchCount (e : Expedition) (target_activity : String) : Nat :=
  (sightedActivities e).count target_activity

/-- Number of sightings under an expedition whose activity equals the
target exactly (case-sensitively), as the claims word it. -/
def matchingSightingCount (e : Expedition) (target_activity : String) : Nat :=
  ((e.reserve.species.flatMap (fun s => s.tracking.sightings)).filter
    (fun sg => sg.activity == target_activity)).length

/-- Activity-threshold match, Polars backend
(`src/run_polars.py:count_activity_matches_per_expedition`): one row per
input expedition row with columns `(expedition_id, sighted_activities,
target_activity_counts)`, filtered to counts strictly above
`min_activity_count`.  No sort is applied. -/
def count_activity_matches_per_expedition_polars (batch : List Expedition)
    (target_activity : String) (min_activity_count : Int) :
    List (String × List String × Nat) :=
  (batch.map (fun e =>
    (e.expedition_id, sightedActivities e,
      expeditionMatchCount e target_activity))).filter
    (fun r => min_activity_count < (r.2.2 : Int))

/-- Activity rows `(expedition_id, activity)` of the DuckDB CTEs
`species_sightings` and `activities`. -/
def activityRows (batch : List Expedition) : List (String × String) :=
  batch.flatMap (fun e =>
    (sightedActivities e).map (fun a => (e.expedition_id, a)))

/-- Activity-threshold match, DuckDB backend
(`src/run_duckdb.py:count_activity_matches_per_expedition`): restrict the
activity rows to the target (an expedition with zero matches therefore has
no group at all), count per expedition id, keep counts strictly above the
threshold, sort descending by the count. -/
def count_activity_matches_per_expedition_duckdb (batch : List Expedition)
    (target_activity : String) (min_activity_count : Int) : List (String × Nat) :=
  sortOnKeyDesc Prod.snd
    ((grouped Prod.fst List.length
      ((activityRows batch).filter (fun r => r.2 == target_activity))).filter
      (fun r => min_activity_count < (r.2 : Int)))

/-- ASCII lowercasing of one character, the embedding of Python and
Polars lowercasing on the ASCII names the data uses. -/
def lowerChar (c : Char) : Char :=
  if 65 ≤ c.toNat ∧ c.toNat ≤ 90 then Char.ofNat (c.toNat + 32) else c

/-- Lowercasing of a string (`str.to_lowercase()` in the Polars pipeline). -/
def toLowerStr (s : String) : String := ⟨s.data.map lowerChar⟩

/-- One row of the filter-by-species-name output:
`name, population, tagged, sightings`. -/
structure FilteredSpeciesRow where
  name : String
  population : Nat
  tagged : Nat
  sightings : List Sighting
deriving DecidableEq

/-- Filter species by name set
(`src/run_polars.py:filter_for_species_by_name`): the stored name is
lowercased and tested verbatim against the caller's collection (the
targets themselves are not lowercased); the `list.len() > 0` pre-filter
only removes expeditions with no match before flattening, so the result is
the concatenation of the per-expedition matches in input order. -/
def filter_for_species_by_name (batch : List Expedition)
    (target_species : List String) : List FilteredSpeciesRow :=
  batch.flatMap (fun e =>
    (e.reserve.species.filter
      (fun s => toLowerStr s.name ∈ target_species)).map
      (fun s => ⟨s.name, s.population, s.tracking.tagged, s.tracking.sightings⟩))

/-- One species-level row of the most-common-activity pipelines:
`(expedition_id, expedition_end_date, species_name, activities)`. -/
structure ActRow where
  expedition_id : String
  expedition_end_date : String
  species_name : String
  activities : List String
deriving DecidableEq

/-- Species-level activity rows in batch order, shared by both
most-common-activity pipelines.  In Polars an expedition with an empty
species list additionally explodes to one all-null row forming a separate
null-keyed group; no claim statement quantifies over that null group, and
the rows keyed by an actual species name are unaffected by it, so the null
row is not carried further. -/
def speciesActivityRows (batch : List Expedition) : List ActRow :=
  batch.flatMap (fun e =>
    e.reserve.species.map (fun s =>
      ⟨e.expedition_id, e.end_date, s.name, s.tracking.sightings.map Sighting.activity⟩))

/-- Rows of one species name, in batch order. -/
def rowsForName (batch : List Expedition) (n : String) : List ActRow :=
  (speciesActivityRows batch).filter (fun r => r.species_name == n)

/-- Polars `sort("species_name", "expedition_end_date", "expedition_id")`
over the species-level rows. -/
def sortedActRowsPolars (batch : List Expedition) : List ActRow :=
  sortBy (fun a b =>
    strListLe [a.species_name, a.expedition_end_date, a.expedition_id]
      [b.species_name, b.expedition_end_date, b.expedition_id])
    (speciesActivityRows batch)

/-- Activity sequence the Polars pipeline gathers for one species name:
the name's rows in the three-column sort order, flattened. -/
def gatheredPolars (batch : List Expedition) (n : String) : List String :=
  ((sortedActRowsPolars batch).filter (fun r => r.species_name == n)).flatMap
    ActRow.activities

/-- Activity sequence the DuckDB pipeline gathers for one species name:
`flatten(list(activities ORDER BY expedition_end_date ASC))`, i.e. the
name's rows stably sorted by end date alone, flattened. -/
def gatheredDuckdb (batch : List Expedition) (n : String) : List String :=
  (sortBy (fun a b => strLe a.expedition_end_date b.expedition_end_date)
    (rowsForName batch n)).flatMap ActRow.activities

/-- Modelled from the spec: the gathered sequence as §4.5.6 words it,
ordered first by the owning expedition's end date ascending and by
expedition id ascending as a tie-break on date. -/
def gatheredSpecOrder (batch : List Expedition) (n : String) : List String :=
  (sortBy (fun a b =>
    strListLe [a.expedition_end_date, a.expedition_id]
      [b.expedition_end_date, b.expedition_id]) (rowsForName batch n)).flatMap
    ActRow.activities

/-- Most common activity per species, Polars backend
(`src/run_polars.py:compute_most_common_activity_per_species`): group the
sorted rows by species name, flatten each group's activities, take value
counts, and keep every `(activity, count)` row whose count equals the
maximum over the species partition — the
`filter(col("count") == max("count").over("species_name"))` step keeps
all tied rows. -/
def compute_most_common_activity_per_species_polars (batch : List Expedition) :
    List (String × String × Nat) :=
  (((sortedActRowsPolars batch).map ActRow.species_name).dedup).flatMap (fun n =>
    (((valueCounts (gatheredPolars batch n)).filter
      (fun p => p.2 == ((valueCounts (gatheredPolars batch n)).map Prod.snd).foldr max 0)).map
      (fun p => (n, p.1, p.2))))

/-- Most common activity per species, DuckDB backend
(`src/run_duckdb.py:compute_most_common_activity_for_species`):
`QUALIFY rank() OVER (PARTITION BY species_name ORDER BY cnt DESC,
activity) = 1` keeps exactly the best `(count, activity)` pair of each
species that has any counted activity; the final `ORDER BY species_name`
sorts the output by name. -/
def compute_most_common_activity_for_species_duckdb (batch : List Expedition) :
    List (String × String × Nat) :=
  (sortBy (fun a b => strLe a b)
      (((speciesActivityRows batch).map ActRow.species_name).dedup)).filterMap (fun n =>
    (pickTop (valueCounts (gatheredDuckdb batch n))).map (fun p => (n, p.1, p.2)))

/-! ### Concrete sample data, used by counterexamples and witnesses -/

/-- Expedition whose reserve has an empty species list. -/
def emptySpeciesExp : Expedition := ⟨"E1", "2025-01-01", "2025-01-02", ⟨"R", []⟩⟩

/-- E1's lion entry of the concrete scenario in §8 of the spec. -/
def lionE1 : Species :=
  ⟨"lion", 10, ⟨12, [⟨"2025-01-03", "hunting"⟩, ⟨"2025-01-04", "hunting"⟩,
    ⟨"2025-01-05", "resting"⟩]⟩⟩

/-- E2's lion entry of the concrete scenario in §8 of the spec. -/
def lionE2 : Species := ⟨"lion", 5, ⟨2, [⟨"2025-01-06", "hunting"⟩]⟩⟩

def expE1 : Expedition := ⟨"E1", "2025-01-01", "2025-01-05", ⟨"North", [lionE1]⟩⟩

def expE2 : Expedition := ⟨"E2", "2025-01-02", "2025-01-06", ⟨"South", [lionE2]⟩⟩

/-- The two-expedition scenario batch of spec §8. -/
def scenarioBatch : List Expedition := [expE1, expE2]

/-! ### Support lemmas about the Polars explode -/

theorem mem_explode_of_mem {batch : List Expedition} {s : Species}
    (h : s ∈ allSpecies batch) : some s ∈ explodeSpeciesPolars batch := by
  rcases List.mem_flatMap.mp h with ⟨e, he, hs⟩
  apply List.mem_flatMap.mpr
  refine ⟨e, he, ?_⟩
  cases hss : e.reserve.species with
  | nil => rw [hss] at hs; cases hs
  | cons a ss =>
    rw [hss] at hs
    exact List.mem_map_of_mem some hs

theorem explode_pop_sum (batch : List Expedition) :
    ((explodeSpeciesPolars batch).map (fun os => (os.map Species.population).getD 0)).sum
      = ((allSpecies batch).map Species.population).sum := by
  induction batch with
  | nil => rfl
  | cons e batch ih =>
    have h1 : explodeSpeciesPolars (e :: batch)
        = (match e.reserve.species with
            | [] => [none]
            | ss => ss.map some) ++ explodeSpeciesPolars batch := by
      unfold explodeSpeciesPolars
      rw [List.flatMap_cons]
    have h2 : allSpecies (e :: batch) = e.reserve.species ++ allSpecies batch := by
      unfold allSpecies
      rw [List.flatMap_cons]
    rw [h1, h2, List.map_append, List.sum_append, List.map_append, List.sum_append, ih]
    congr 1
    cases hss : e.reserve.species with
    | nil => simp
    | cons a ss => simp [List.map_map, Function.comp_def]

theorem popRowsPolars_cons (e : Expedition) (batch : List Expedition) :
    popRowsPolars (e :: batch)
      = ((match e.reserve.species with
          | [] => [none]
          | ss => ss.map some).map
            (fun os : Option Species => (os.map Species.name, os.map Species.population)))
        ++ popRowsPolars batch := by
  unfold popRowsPolars explodeSpeciesPolars
  rw [List.flatMap_cons, List.map_append]

theorem popRowsPolars_filter_some (batch : List Expedition) (n : String) :
    (popRowsPolars batch).filter (fun r => r.1 == some n)
      = ((allSpecies batch).filter (fun s => s.name == n)).map
          (fun s => (some s.name, some s.population)) := by
  induction batch with
  | nil => rfl
  | cons e batch ih =>
    have h2 : allSpecies (e :: batch) = e.reserve.species ++ allSpecies batch := by
      unfold allSpecies
      rw [List.flatMap_cons]
    rw [popRowsPolars_cons, List.filter_append, ih, h2, List.filter_append, List.map_append]
    congr 1
    cases hss : e.reserve.species with
    | nil => simp
    | cons a ss =>
      rw [List.map_map, List.filter_map]
      have hfe : ∀ s ∈ (a :: ss),
          (((fun r : Option String × Option Nat => r.1 == some n) ∘
            ((fun os : Option Species =>
              (os.map Species.name, os.map Species.population)) ∘ some)) s)
            = (s.name == n) := by
        intro s _
        simp [Function.comp_def]
      rw [List.filter_congr hfe]
      rfl

theorem popRowsPolars_none_sum (batch : List Expedition) :
    (((popRowsPolars batch).filter (fun r => r.1 == (none : Option String))).map
      (fun r => r.2.getD 0)).sum = 0 := by
  apply List.sum_eq_zero
  intro x hx
  rcases List.mem_map.mp hx with ⟨r, hr, rfl⟩
  rcases List.mem_filter.mp hr with ⟨hrm, hcond⟩
  unfold popRowsPolars at hrm
  rcases List.mem_map.mp hrm with ⟨os, _, rfl⟩
  cases os with
  | none => rfl
  | some s => simp at hcond

/-! ### Claim C10 — the two backends agree on the unique expedition count -/

/-- C10: for every batch presented identically to both backends, the
DuckDB and Polars implementations of the unique-expedition-count operation
return the same natural number, and on an empty batch both return 0. -/
theorem C10_unique_expedition_count_equiv :
    (∀ batch : List Expedition,
      compute_unique_expedition_count_duckdb batch
        = compute_unique_expedition_count_polars batch)
    ∧ compute_unique_expedition_count_duckdb [] = 0
    ∧ compute_unique_expedition_count_polars [] = 0 :=
  ⟨fun _ => List.card_toFinset _, rfl, rfl⟩

/-! ### Claim C6 — unique species count per expedition -/

/-- C6 (counterexample): the claim asserts one output row per expedition
*including* expeditions whose species list is empty; on a one-expedition
batch with an empty species list the DuckDB implementation returns no row
at all (its `unnest` produces no row to group), while the Polars
implementation returns the claimed row with count 0. -/
theorem C6_unique_species_count_counterexample :
    compute_unique_species_count_per_expedition_duckdb [emptySpeciesExp] = []
    ∧ compute_unique_species_count_per_expedition_polars [emptySpeciesExp] = [("E1", 0)] :=
  ⟨by decide, by decide⟩

/-- C6 (amended): the Polars implementation returns exactly one output row
per expedition record — including empty species lists — whose count is the
number of distinct names in that record's list; the DuckDB implementation
returns one row per distinct expedition id that owns at least one species
row, with the count taken across every record carrying that id, and
returns no row for an expedition whose species list is empty. -/
theorem C6_unique_species_count_amended (batch : List Expedition) :
    compute_unique_species_count_per_expedition_polars batch
        = batch.map (fun e => (e.expedition_id, (speciesNames e).toFinset.card))
    ∧ ((compute_unique_species_count_per_expedition_duckdb batch).map Prod.fst).Nodup
    ∧ ∀ i c, ((i, c) ∈ compute_unique_species_count_per_expedition_duckdb batch ↔
        ((∃ e ∈ batch, e.expedition_id = i ∧ e.reserve.species ≠ [])
          ∧ c = (((batch.filter (fun e => e.expedition_id == i)).flatMap
              speciesNames).toFinset).card)) := by
  refine ⟨?_, ?_, ?_⟩
  · unfold compute_unique_species_count_per_expedition_polars
    apply List.map_congr_left
    intro e _
    rw [List.card_toFinset]
  · exact grouped_keys_nodup _ _ _
  · intro i c
    unfold compute_unique_species_count_per_expedition_duckdb
    rw [mem_grouped]
    have hB : ((speciesNameRows batch).filter (fun r => r.1 == i)).map Prod.snd
        = (batch.filter (fun e => e.expedition_id == i)).flatMap speciesNames :=
      filter_keyed_flatMap batch Expedition.expedition_id speciesNames i
    have hA : i ∈ (speciesNameRows batch).map Prod.fst ↔
        ∃ e ∈ batch, e.expedition_id = i ∧ e.reserve.species ≠ [] := by
      constructor
      · intro hi
        rcases List.mem_map.mp hi with ⟨r, hr, rfl⟩
        unfold speciesNameRows at hr
        rcases List.mem_flatMap.mp hr with ⟨e, he, hrm⟩
        rcases List.mem_map.mp hrm with ⟨nm, hnm, rfl⟩
        refine ⟨e, he, rfl, ?_⟩
        intro hsp
        unfold speciesNames at hnm
        rw [hsp] at hnm
        cases hnm
      · rintro ⟨e, he, rfl, hne⟩
        rcases List.exists_cons_of_ne_nil hne with ⟨s, ss, hss⟩
        apply List.mem_map.mpr
        refine ⟨(e.expedition_id, s.name), ?_, rfl⟩
        unfold speciesNameRows
        apply List.mem_flatMap.mpr
        refine ⟨e, he, ?_⟩
        apply List.mem_map_of_mem
        unfold speciesNames
        rw [hss]
        exact List.mem_map_of_mem Species.name (List.mem_cons_self s ss)
    rw [List.card_toFinset, ← hB]
    exact and_congr hA Iff.rfl

/-- C6 (witness): on the §8 scenario batch the DuckDB output carries the
row `("E1", 1)`. -/
theorem C6_unique_species_count_witness :
    ("E1", 1) ∈ compute_unique_species_count_per_expedition_duckdb scenarioBatch := by
  apply ((C6_unique_species_count_amended scenarioBatch).2.2 "E1" 1).mpr
  refine ⟨⟨expE1, List.Mem.head _, rfl, by decide⟩, by decide⟩

/-! ### Claim C2 — exploding an empty species list -/

/-- C2 (counterexample): the claim asserts that an expedition with zero
species contributes no row and no null-named group to the
species-population-totals output; the Polars implementation, whose
`explode` turns an empty list into a single null element, produces exactly
the null-named group with population 0 on a one-expedition batch with an
empty species list. -/
theorem C2_empty_species_counterexample :
    compute_species_population_polars [emptySpeciesExp]
      = [((none : Option String), 0)] := by decide

/-- C2 (amended): in the DuckDB implementation an expedition with an empty
species list contributes nothing to the species-population-totals output
(`unnest` of an empty list yields zero rows); in the Polars implementation
such an expedition contributes a null-named group whose summed population
is 0, because `explode` yields a single null element for an empty list. -/
theorem C2_empty_species_amended (e : Expedition) (batch : List Expedition)
    (h : e.reserve.species = []) :
    compute_species_population_duckdb (e :: batch)
        = compute_species_population_duckdb batch
    ∧ ((none : Option String), 0) ∈ compute_species_population_polars (e :: batch) := by
  constructor
  · have h1 : allSpecies (e :: batch) = allSpecies batch := by
      unfold allSpecies
      rw [List.flatMap_cons, h, List.nil_append]
    unfold compute_species_population_duckdb popRowsDuckdb
    rw [h1]
  · apply (sortOnKeyDesc_mem _ _ _).mpr
    apply (mem_grouped _ _ _ _ _).mpr
    constructor
    · have h2 : ((none : Option String), (none : Option Nat))
          ∈ popRowsPolars (e :: batch) := by
        rw [popRowsPolars_cons, h]
        exact List.mem_append.mpr (Or.inl (List.Mem.head _))
      exact List.mem_map_of_mem Prod.fst h2
    · exact (popRowsPolars_none_sum (e :: batch)).symm

/-- C2 (witness): the amended statement at the concrete one-expedition
batch with an empty species list. -/
theorem C2_empty_species_witness :
    emptySpeciesExp.reserve.species = []
    ∧ compute_species_population_duckdb [emptySpeciesExp]
        = compute_species_population_duckdb []
    ∧ ((none : Option String), 0) ∈ compute_species_population_polars [emptySpeciesExp] := by
  have h := C2_empty_species_amended emptySpeciesExp [] rfl
  exact ⟨rfl, h.1, h.2⟩

/-! ### Claim C7 — species population totals preserve the total -/

/-- C7: in both backends the species-population-totals output sums to the
total population over every exploded species row (nothing double-counted,
nothing lost — in Polars the null-named group contributes zero), each
output key appears exactly once, and every species name present in the
batch is merged into a single output row carrying the sum of the
populations recorded under that name. -/
theorem C7_population_totals (batch : List Expedition) :
    ((compute_species_population_duckdb batch).map Prod.snd).sum
        = ((allSpecies batch).map Species.population).sum
    ∧ ((compute_species_population_polars batch).map Prod.snd).sum
        = ((allSpecies batch).map Species.population).sum
    ∧ ((compute_species_population_duckdb batch).map Prod.fst).Nodup
    ∧ ((compute_species_population_polars batch).map Prod.fst).Nodup
    ∧ (∀ n, n ∈ (allSpecies batch).map Species.name →
        (n, (((allSpecies batch).filter (fun s => s.name == n)).map
          Species.population).sum) ∈ compute_species_population_duckdb batch)
    ∧ (∀ n, n ∈ (allSpecies batch).map Species.name →
        (some n, (((allSpecies batch).filter (fun s => s.name == n)).map
          Species.population).sum) ∈ compute_species_population_polars batch) := by
  refine ⟨?_, ?_, ?_, ?_, ?_, ?_⟩
  · unfold compute_species_population_duckdb
    rw [((sortOnKeyDesc_perm _ _).map Prod.snd).sum_eq, grouped_sum]
    unfold popRowsDuckdb
    rw [List.map_map]
    rfl
  · unfold compute_species_population_polars
    rw [((sortOnKeyDesc_perm _ _).map Prod.snd).sum_eq, grouped_sum]
    unfold popRowsPolars
    rw [List.map_map]
    exact explode_pop_sum batch
  · unfold compute_species_population_duckdb
    exact ((sortOnKeyDesc_perm _ _).map Prod.fst).nodup_iff.mpr (grouped_keys_nodup _ _ _)
  · unfold compute_species_population_polars
    exact ((sortOnKeyDesc_perm _ _).map Prod.fst).nodup_iff.mpr (grouped_keys_nodup _ _ _)
  · intro n hn
    apply (sortOnKeyDesc_mem _ _ _).mpr
    apply (mem_grouped _ _ _ _ _).mpr
    constructor
    · unfold popRowsDuckdb
      rw [List.map_map]
      exact hn
    · have h1 : (popRowsDuckdb batch).filter (fun r => r.1 == n)
          = ((allSpecies batch).filter (fun s => s.name == n)).map
            (fun s => (s.name, s.population)) := by
        unfold popRowsDuckdb
        rw [List.filter_map]
        apply congrArg
        apply List.filter_congr
        intro s _
        rfl
      rw [h1, List.map_map]
      rfl
  · intro n hn
    apply (sortOnKeyDesc_mem _ _ _).mpr
    apply (mem_grouped _ _ _ _ _).mpr
    constructor
    · rcases List.mem_map.mp hn with ⟨s, hs, rfl⟩
      apply List.mem_map.mpr
      refine ⟨(some s.name, some s.population), ?_, rfl⟩
      unfold popRowsPolars
      exact List.mem_map.mpr ⟨some s, mem_explode_of_mem hs, rfl⟩
    · rw [popRowsPolars_filter_some, List.map_map]
      rfl

/-- C7 (witness): on the §8 scenario batch the two lion entries are merged
into a single row totalling 15 in both backends. -/
theorem C7_population_totals_witness :
    ("lion", 15) ∈ compute_species_population_duckdb scenarioBatch
    ∧ (some "lion", 15) ∈ compute_species_population_polars scenarioBatch := by
  have h := C7_population_totals scenarioBatch
  exact ⟨h.2.2.2.2.1 "lion" (List.Mem.head _), h.2.2.2.2.2 "lion" (List.Mem.head _)⟩

/-! ### Claim C4 — zero population with positive tagged count is surfaced -/

theorem trackingIssueRow_spec (s : Species) (h : s.population < s.tracking.tagged) :
    (trackingIssueRow s).population < (trackingIssueRow s).tagged
    ∧ (0 < (trackingIssueRow s).population →
        (trackingIssueRow s).ratio_tagged
          = ((round2 (((trackingIssueRow s).tagged : ℚ)
              / ((trackingIssueRow s).population : ℚ))) : WithTop ℚ)
        ∧ (trackingIssueRow s).excess_count
            = (trackingIssueRow s).tagged - (trackingIssueRow s).population) := by
  refine ⟨h, fun hp => ⟨?_, rfl⟩⟩
  have hp2 : s.population ≠ 0 := Nat.pos_iff_ne_zero.mp hp
  show ratioTagged s.tracking.tagged s.population = _
  unfold ratioTagged
  rw [if_neg hp2]
  rfl

/-- C4: every species row with population 0 and a positive tagged count is
surfaced by both tracking-issue implementations as an output row whose
undefined ratio is represented explicitly by the infinite element `⊤` (the
IEEE positive infinity both backends produce when a positive float is
divided by zero); the row is neither dropped nor does the computation
fault — the embedded operations are total. -/
theorem C4_undefined_ratio_surfaced (batch : List Expedition) (e : Expedition)
    (s : Species) (he : e ∈ batch) (hs : s ∈ e.reserve.species)
    (hpop : s.population = 0) (htag : 0 < s.tracking.tagged) :
    (⟨s.name, 0, s.tracking.tagged, ⊤, s.tracking.tagged⟩ : TrackingIssueRow)
        ∈ determine_tracking_issues_by_species_polars batch
    ∧ (⟨s.name, 0, s.tracking.tagged, ⊤, s.tracking.tagged⟩ : TrackingIssueRow)
        ∈ determine_tracking_issues_by_species_duckdb batch := by
  have hsall : s ∈ allSpecies batch := List.mem_flatMap.mpr ⟨e, he, hs⟩
  have hlt : s.population < s.tracking.tagged := by rw [hpop]; exact htag
  have hrow : trackingIssueRow s
      = (⟨s.name, 0, s.tracking.tagged, ⊤, s.tracking.tagged⟩ : TrackingIssueRow) := by
    unfold trackingIssueRow ratioTagged
    rw [hpop]
    simp
  constructor
  · apply (sortOnKeyDesc_mem _ _ _).mpr
    apply List.mem_filterMap.mpr
    refine ⟨some s, mem_explode_of_mem hsall, ?_⟩
    show (if s.population < s.tracking.tagged
        then some (trackingIssueRow s) else none) = some _
    rw [if_pos hlt, hrow]
  · apply (sortOnKeyDesc_mem _ _ _).mpr
    apply List.mem_map.mpr
    refine ⟨s, ?_, hrow⟩
    exact List.mem_filter.mpr ⟨hsall, by simpa using hlt⟩

/-- Species with zero population and one tagged individual (spec §8's
second concrete scenario). -/
def ghost : Species := ⟨"ghost", 0, ⟨1, []⟩⟩

def ghostExp : Expedition := ⟨"E9", "2025-01-01", "2025-01-02", ⟨"R", [ghost]⟩⟩

/-- C4 (witness): the zero-population species with one tagged individual
appears in both outputs with the explicit infinite ratio. -/
theorem C4_undefined_ratio_witness :
    ghost ∈ ghostExp.reserve.species ∧ ghost.population = 0
    ∧ 0 < ghost.tracking.tagged
    ∧ (⟨"ghost", 0, 1, ⊤, 1⟩ : TrackingIssueRow)
        ∈ determine_tracking_issues_by_species_polars [ghostExp]
    ∧ (⟨"ghost", 0, 1, ⊤, 1⟩ : TrackingIssueRow)
        ∈ determine_tracking_issues_by_species_duckdb [ghostExp] := by
  have h := C4_undefined_ratio_surfaced [ghostExp] ghostExp ghost
    (List.Mem.head _) (List.Mem.head _) rfl (by decide)
  exact ⟨List.Mem.head _, rfl, by decide, h.1, h.2⟩

/-! ### Claim C5 — tracking-issue rows and their ordering -/

/-- C5: every tracking-issue output row satisfies the strict
`tagged > population` filter; on rows with positive population the ratio
equals the two-decimal rounding of tagged over population and the excess
equals their difference; and both outputs are sorted in descending order
of `ratio_tagged`. -/
theorem C5_tracking_issue_rows (batch : List Expedition) :
    (∀ r ∈ determine_tracking_issues_by_species_polars batch,
      r.population < r.tagged
      ∧ (0 < r.population →
          r.ratio_tagged = ((round2 ((r.tagged : ℚ) / (r.population : ℚ))) : WithTop ℚ)
            ∧ r.excess_count = r.tagged - r.population))
    ∧ (determine_tracking_issues_by_species_polars batch).Sorted
        (fun a b => b.ratio_tagged ≤ a.ratio_tagged)
    ∧ (∀ r ∈ determine_tracking_issues_by_species_duckdb batch,
      r.population < r.tagged
      ∧ (0 < r.population →
          r.ratio_tagged = ((round2 ((r.tagged : ℚ) / (r.population : ℚ))) : WithTop ℚ)
            ∧ r.excess_count = r.tagged - r.population))
    ∧ (determine_tracking_issues_by_species_duckdb batch).Sorted
        (fun a b => b.ratio_tagged ≤ a.ratio_tagged) := by
  refine ⟨?_, ?_, ?_, ?_⟩
  · intro r hr
    have hr2 := (sortOnKeyDesc_mem _ _ _).mp hr
    rcases List.mem_filterMap.mp hr2 with ⟨os, _, hf⟩
    cases os with
    | none => cases hf
    | some s =>
      by_cases hc : s.population < s.tracking.tagged
      · rw [show (match some s with
            | none => none
            | some s => if s.population < s.tracking.tagged
                then some (trackingIssueRow s) else none)
            = (if s.population < s.tracking.tagged
                then some (trackingIssueRow s) else none) from rfl, if_pos hc] at hf
        cases hf
        exact trackingIssueRow_spec s hc
      · rw [show (match some s with
            | none => none
            | some s => if s.population < s.tracking.tagged
                then some (trackingIssueRow s) else none)
            = (if s.population < s.tracking.tagged
                then some (trackingIssueRow s) else none) from rfl, if_neg hc] at hf
        cases hf
  · exact sortOnKeyDesc_sorted _ _
  · intro r hr
    have hr2 := (sortOnKeyDesc_mem _ _ _).mp hr
    rcases List.mem_map.mp hr2 with ⟨s, hsf, rfl⟩
    rcases List.mem_filter.mp hsf with ⟨_, hcond⟩
    exact trackingIssueRow_spec s (by simpa using hcond)
  · exact sortOnKeyDesc_sorted _ _

/-- C5 (witness): on the §8 scenario batch the single qualifying row (E1's
lion, ratio 1.2, excess 2) satisfies every clause. -/
theorem C5_tracking_issue_rows_witness :
    trackingIssueRow lionE1 ∈ determine_tracking_issues_by_species_polars scenarioBatch
    ∧ (trackingIssueRow lionE1).population < (trackingIssueRow lionE1).tagged
    ∧ 0 < (trackingIssueRow lionE1).population
    ∧ (trackingIssueRow lionE1).ratio_tagged
        = ((round2 (((trackingIssueRow lionE1).tagged : ℚ)
            / ((trackingIssueRow lionE1).population : ℚ))) : WithTop ℚ)
    ∧ (trackingIssueRow lionE1).excess_count
        = (trackingIssueRow lionE1).tagged - (trackingIssueRow lionE1).population := by
  have hmem : trackingIssueRow lionE1
      ∈ determine_tracking_issues_by_species_polars scenarioBatch := List.Mem.head _
  have h := (C5_tracking_issue_rows scenarioBatch).1 (trackingIssueRow lionE1) hmem
  have hp : 0 < (trackingIssueRow lionE1).population := by decide
  exact ⟨hmem, h.1, hp, (h.2 hp).1, (h.2 hp).2⟩

/-! ### Claim C9 — filter by species name set -/

/-- Claim-side case-insensitive name match. -/
def namesMatchCaseInsensitive (a b : String) : Prop := toLowerStr a = toLowerStr b

/-- Species entry whose stored name carries an upper-case letter. -/
def capsLion : Species := ⟨"Lion", 3, ⟨1, []⟩⟩

def capsExp : Expedition := ⟨"E7", "2025-01-01", "2025-01-02", ⟨"R", [capsLion]⟩⟩

/-- C9 (counterexample): the claim asserts a species entry is returned
regardless of the letter case of either the stored name or the
caller-supplied target.  The stored name "Lion" matches the target "Lion"
case-insensitively, yet the operation returns nothing for that target —
only the stored name is lowercased, so any target containing an upper-case
letter never matches; the all-lowercase target "lion" does return the
entry. -/
theorem C9_name_filter_counterexample :
    namesMatchCaseInsensitive capsLion.name "Lion"
    ∧ filter_for_species_by_name [capsExp] ["Lion"] = []
    ∧ filter_for_species_by_name [capsExp] ["lion"]
        = [⟨"Lion", 3, 1, []⟩] :=
  ⟨rfl, by decide, by decide⟩

/-- C9 (amended): the operation returns exactly the species entries
(across all expeditions, with columns name, population, tagged, sightings)
whose lowercased stored name is verbatim an element of the caller-supplied
target collection — case-insensitive in the stored name only; the targets
are compared as given. -/
theorem C9_name_filter_amended (batch : List Expedition)
    (target_species : List String) (r : FilteredSpeciesRow) :
    r ∈ filter_for_species_by_name batch target_species ↔
      ∃ e ∈ batch, ∃ s ∈ e.reserve.species,
        toLowerStr s.name ∈ target_species
        ∧ r = ⟨s.name, s.population, s.tracking.tagged, s.tracking.sightings⟩ := by
  unfold filter_for_species_by_name
  rw [List.mem_flatMap]
  constructor
  · rintro ⟨e, he, hr⟩
    rcases List.mem_map.mp hr with ⟨s, hsf, rfl⟩
    rcases List.mem_filter.mp hsf with ⟨hs, hcond⟩
    exact ⟨e, he, s, hs, by simpa using hcond, rfl⟩
  · rintro ⟨e, he, s, hs, hmem, rfl⟩
    exact ⟨e, he, List.mem_map_of_mem _ (List.mem_filter.mpr ⟨hs, by simpa using hmem⟩)⟩

/-- C9 (witness): the amended membership at the concrete batch with the
all-lowercase target. -/
theorem C9_name_filter_witness :
    (⟨"Lion", 3, 1, []⟩ : FilteredSpeciesRow)
      ∈ filter_for_species_by_name [capsExp] ["lion"] := by
  apply (C9_name_filter_amended [capsExp] ["lion"] _).mpr
  exact ⟨capsExp, List.Mem.head _, capsLion, List.Mem.head _, by decide, rfl⟩

/-! ### Claim C3 — activity threshold: support lemmas -/

theorem flatten_map_map {α β γ : Type} (f : β → γ) (g : α → List β) :
    ∀ l : List α, ((l.map (fun a => (g a).map f)).flatten) = (l.flatMap g).map f
  | [] => rfl
  | a :: l => by
    rw [List.map_cons, List.flatten_cons, List.flatMap_cons, List.map_append,
      flatten_map_map f g l]

theorem sightedActivities_eq (e : Expedition) :
    sightedActivities e
      = (e.reserve.species.flatMap (fun s => s.tracking.sightings)).map
          Sighting.activity := by
  unfold sightedActivities
  exact flatten_map_map Sighting.activity (fun s => s.tracking.sightings)
    e.reserve.species

theorem filter_sighted_eq (e : Expedition) (t : String) :
    ((sightedActivities e).filter (fun a => a == t)).length
      = matchingSightingCount e t := by
  unfold matchingSightingCount
  rw [sightedActivities_eq, List.filter_map, List.length_map]
  rfl

theorem expeditionMatchCount_eq_filter (e : Expedition) (t : String) :
    expeditionMatchCount e t
      = ((sightedActivities e).filter (fun a => a == t)).length := by
  show List.countP (fun a => a == t) (sightedActivities e) = _
  rw [List.countP_eq_length_filter]

theorem expeditionMatchCount_eq (e : Expedition) (t : String) :
    expeditionMatchCount e t = matchingSightingCount e t := by
  rw [expeditionMatchCount_eq_filter, filter_sighted_eq]

theorem nodup_map_inj {α κ : Type} (key : α → κ) :
    ∀ l : List α, (l.map key).Nodup → ∀ a ∈ l, ∀ b ∈ l, key a = key b → a = b
  | [], _, a, ha, _, _, _ => absurd ha (List.not_mem_nil a)
  | c :: l, hnd, a, ha, b, hb, he => by
    rw [List.map_cons] at hnd
    obtain ⟨hc, hl⟩ := List.nodup_cons.mp hnd
    rcases List.mem_cons.mp ha with rfl | ha2
    · rcases List.mem_cons.mp hb with rfl | hb2
      · rfl
      · exact absurd (by rw [he]; exact List.mem_map_of_mem key hb2) hc
    · rcases List.mem_cons.mp hb with rfl | hb2
      · exact absurd (by rw [← he]; exact List.mem_map_of_mem key ha2) hc
      · exact nodup_map_inj key l hl a ha2 b hb2 he

theorem filter_key_eq_singleton {α κ : Type} [BEq κ] [LawfulBEq κ] (key : α → κ) :
    ∀ l : List α, (l.map key).Nodup → ∀ a ∈ l,
      l.filter (fun x => key x == key a) = [a]
  | [], _, a, ha => absurd ha (List.not_mem_nil a)
  | b :: l, hnd, a, ha => by
    rw [List.map_cons] at hnd
    obtain ⟨hb, hl⟩ := List.nodup_cons.mp hnd
    rcases List.mem_cons.mp ha with rfl | ha2
    · rw [List.filter_cons, if_pos (by simp)]
      have hnil : l.filter (fun x => key x == key a) = [] :=
        List.filter_eq_nil_iff.mpr (fun x hx => by
          simp only [beq_iff_eq]
          intro he
          exact hb (by rw [← he]; exact List.mem_map_of_mem key hx))
      rw [hnil]
    · have hne : ¬(key b == key a) = true := by
        simp only [beq_iff_eq]
        intro he
        exact hb (by rw [he]; exact List.mem_map_of_mem key ha2)
      rw [List.filter_cons, if_neg hne]
      exact filter_key_eq_singleton key l hl a ha2

theorem mem_map_fst_iff {κ β : Type} [BEq κ] [LawfulBEq κ] (l : List (κ × β)) (k : κ) :
    k ∈ l.map Prod.fst ↔ l.filter (fun r => r.1 == k) ≠ [] := by
  constructor
  · intro hk
    rcases List.mem_map.mp hk with ⟨r, hr, rfl⟩
    intro hnil
    have hmem : r ∈ l.filter (fun r2 => r2.1 == r.1) :=
      List.mem_filter.mpr ⟨hr, by simp⟩
    rw [hnil] at hmem
    cases hmem
  · intro hne
    rcases List.exists_cons_of_ne_nil hne with ⟨r, rs, hr⟩
    have hrm : r ∈ l.filter (fun r2 => r2.1 == k) := by
      rw [hr]; exact List.Mem.head _
    rcases List.mem_filter.mp hrm with ⟨hrl, hcond⟩
    have hrk : r.1 = k := by simpa using hcond
    rw [← hrk]
    exact List.mem_map_of_mem Prod.fst hrl

theorem activity_matches_eq (batch : List Expedition) (t : String) :
    (activityRows batch).filter (fun r => r.2 == t)
      = batch.flatMap (fun e =>
          ((sightedActivities e).filter (fun a => a == t)).map
            (fun a => (e.expedition_id, a))) := by
  unfold activityRows
  induction batch with
  | nil => rfl
  | cons e batch ih =>
    rw [List.flatMap_cons, List.filter_append, ih, List.flatMap_cons]
    congr 1
    rw [List.filter_map]
    apply congrArg
    apply List.filter_congr
    intro a _
    rfl

/-- Expedition with one matching sighting. -/
def hunt1Exp : Expedition :=
  ⟨"E1", "2025-01-01", "2025-01-02", ⟨"R", [⟨"fox", 5, ⟨1, [⟨"d1", "hunting"⟩]⟩⟩]⟩⟩

/-- Expedition with two matching sightings. -/
def hunt2Exp : Expedition :=
  ⟨"E2", "2025-01-01", "2025-01-02",
    ⟨"R", [⟨"owl", 5, ⟨1, [⟨"d2", "hunting"⟩, ⟨"d3", "hunting"⟩]⟩⟩]⟩⟩

def huntBatch : List Expedition := [hunt1Exp, hunt2Exp]

/-- C3 (counterexample): the claim asserts the activity-threshold output
is sorted in descending order of the match count; the Polars
implementation applies no sort, so on a batch whose expeditions arrive in
ascending count order the output counts are `[1, 2]`, not descending. -/
theorem C3_activity_threshold_counterexample :
    ((count_activity_matches_per_expedition_polars huntBatch "hunting" 0).map
      (fun r => r.2.2)) = [1, 2]
    ∧ ¬ ((count_activity_matches_per_expedition_polars huntBatch "hunting" 0).map
      (fun r => r.2.2)).Sorted (fun a b => b ≤ a) :=
  ⟨by decide, by decide⟩

/-- C3 (amended): for distinct expedition ids and a non-negative
threshold, both implementations contain an expedition exactly when its
true match count strictly exceeds `min_activity_count` (for the DuckDB
implementation the non-negative threshold matters: an expedition with
zero matches has no group at all); every DuckDB output row carries the
true count of its expedition and the DuckDB output is sorted descending
by that count, while the Polars output is not sorted — its rows keep the
input batch order. -/
theorem C3_activity_threshold_amended (batch : List Expedition)
    (target_activity : String) (min_activity_count : Int)
    (hids : (batch.map Expedition.expedition_id).Nodup)
    (hmin : 0 ≤ min_activity_count) :
    (∀ e ∈ batch,
      ((∃ r ∈ count_activity_matches_per_expedition_polars batch
          target_activity min_activity_count, r.1 = e.expedition_id)
        ↔ min_activity_count < (matchingSightingCount e target_activity : Int)))
    ∧ ((count_activity_matches_per_expedition_polars batch
        target_activity min_activity_count).map (fun r => r.1)).Sublist
        (batch.map Expedition.expedition_id)
    ∧ (∀ e ∈ batch,
      ((∃ r ∈ count_activity_matches_per_expedition_duckdb batch
          target_activity min_activity_count, r.1 = e.expedition_id)
        ↔ min_activity_count < (matchingSightingCount e target_activity : Int)))
    ∧ (∀ r ∈ count_activity_matches_per_expedition_duckdb batch
          target_activity min_activity_count,
        ∃ e ∈ batch, r.1 = e.expedition_id
          ∧ r.2 = matchingSightingCount e target_activity)
    ∧ (count_activity_matches_per_expedition_duckdb batch
        target_activity min_activity_count).Sorted (fun a b => b.2 ≤ a.2) := by
  have hval : ∀ e ∈ batch,
      ((((activityRows batch).filter (fun r => r.2 == target_activity)).filter
        (fun r => r.1 == e.expedition_id)).length)
        = matchingSightingCount e target_activity := by
    intro e he
    have h1 : (((activityRows batch).filter (fun r => r.2 == target_activity)).filter
          (fun r => r.1 == e.expedition_id)).map Prod.snd
        = (batch.filter (fun x => x.expedition_id == e.expedition_id)).flatMap
            (fun x => (sightedActivities x).filter (fun a => a == target_activity)) := by
      rw [activity_matches_eq]
      exact filter_keyed_flatMap batch Expedition.expedition_id
        (fun x => (sightedActivities x).filter (fun a => a == target_activity))
        e.expedition_id
    have h2 := congrArg List.length h1
    rw [List.length_map] at h2
    rw [h2, filter_key_eq_singleton Expedition.expedition_id batch hids e he]
    rw [List.flatMap_cons, List.flatMap_nil, List.append_nil]
    exact filter_sighted_eq e target_activity
  refine ⟨?_, ?_, ?_, ?_, ?_⟩
  · intro e he
    constructor
    · rintro ⟨r, hr, hid⟩
      unfold count_activity_matches_per_expedition_polars at hr
      rcases List.mem_filter.mp hr with ⟨hrm, hcond⟩
      rcases List.mem_map.mp hrm with ⟨e2, he2, rfl⟩
      have he2e : e2 = e :=
        nodup_map_inj Expedition.expedition_id batch hids e2 he2 e he hid
      subst he2e
      have hcond2 : min_activity_count
          < (expeditionMatchCount e2 target_activity : Int) := by
        simpa using hcond
      rwa [expeditionMatchCount_eq] at hcond2
    · intro hc
      refine ⟨(e.expedition_id, sightedActivities e,
        expeditionMatchCount e target_activity), ?_, rfl⟩
      unfold count_activity_matches_per_expedition_polars
      apply List.mem_filter.mpr
      refine ⟨List.mem_map_of_mem _ he, ?_⟩
      simp only [decide_eq_true_eq]
      rwa [expeditionMatchCount_eq]
  · unfold count_activity_matches_per_expedition_polars
    have h1 : ((batch.map (fun e => (e.expedition_id, sightedActivities e,
          expeditionMatchCount e target_activity))).filter
        (fun r => min_activity_count < (r.2.2 : Int))).Sublist
        (batch.map (fun e => (e.expedition_id, sightedActivities e,
          expeditionMatchCount e target_activity))) := List.filter_sublist _
    have h2 := h1.map (fun r : String × List String × Nat => r.1)
    rw [List.map_map] at h2
    exact h2
  · intro e he
    constructor
    · rintro ⟨r, hr, hid⟩
      unfold count_activity_matches_per_expedition_duckdb at hr
      have hr2 := (sortOnKeyDesc_mem _ _ _).mp hr
      rcases List.mem_filter.mp hr2 with ⟨hrg, hcond⟩
      obtain ⟨i, c⟩ := r
      rcases (mem_grouped _ _ _ _ _).mp hrg with ⟨_, hcv⟩
      have hid2 : i = e.expedition_id := hid
      subst hid2
      have hcond2 : min_activity_count < (c : Int) := by simpa using hcond
      rw [hcv, hval e he] at hcond2
      exact hcond2
    · intro hc
      have hc1 : 0 < matchingSightingCount e target_activity := by
        have h0 : (0 : Int) < (matchingSightingCount e target_activity : Int) :=
          lt_of_le_of_lt hmin hc
        exact_mod_cast h0
      refine ⟨(e.expedition_id, matchingSightingCount e target_activity), ?_, rfl⟩
      unfold count_activity_matches_per_expedition_duckdb
      apply (sortOnKeyDesc_mem _ _ _).mpr
      apply List.mem_filter.mpr
      constructor
      · apply (mem_grouped _ _ _ _ _).mpr
        constructor
        · apply (mem_map_fst_iff _ _).mpr
          intro hnil
          have hlen := congrArg List.length hnil
          rw [hval e he] at hlen
          simp only [List.length_nil] at hlen
          rw [hlen] at hc1
          exact absurd hc1 (lt_irrefl 0)
        · exact (hval e he).symm
      · simp only [decide_eq_true_eq]
        exact hc
  · intro r hr
    unfold count_activity_matches_per_expedition_duckdb at hr
    have hr2 := (sortOnKeyDesc_mem _ _ _).mp hr
    rcases List.mem_filter.mp hr2 with ⟨hrg, _⟩
    obtain ⟨i, c⟩ := r
    rcases (mem_grouped _ _ _ _ _).mp hrg with ⟨hkey, hcv⟩
    rcases List.mem_map.mp hkey with ⟨row, hrow, hfst⟩
    rcases List.mem_filter.mp hrow with ⟨hrowm, _⟩
    unfold activityRows at hrowm
    rcases List.mem_flatMap.mp hrowm with ⟨e2, he2, hrow2⟩
    rcases List.mem_map.mp hrow2 with ⟨a, _, rfl⟩
    have hie : i = e2.expedition_id := hfst.symm
    subst hie
    exact ⟨e2, he2, rfl, by rw [hcv, hval e2 he2]⟩
  · exact sortOnKeyDesc_sorted _ _

/-- C3 (witness): the amended statement at the concrete two-expedition
batch, target "hunting", threshold 0: E2 (two matches) is present in the
DuckDB output. -/
theorem C3_activity_threshold_witness :
    (huntBatch.map Expedition.expedition_id).Nodup
    ∧ (0 : Int) ≤ 0
    ∧ (∃ r ∈ count_activity_matches_per_expedition_duckdb huntBatch "hunting" 0,
        r.1 = "E2") := by
  refine ⟨by decide, le_refl 0, ?_⟩
  have h := (C3_activity_threshold_amended huntBatch "hunting" 0 (by decide)
    (le_refl 0)).2.2.1 hunt2Exp (List.mem_cons.mpr (Or.inr (List.Mem.head _)))
  exact h.mpr (by decide)

/-! ### Claim C8 — ordering of the gathered activity sequence -/

theorem strListLe_tail_of_eq_head {x : String} {as bs : List String}
    (h : strListLe (x :: as) (x :: bs) = true) : strListLe as bs = true := by
  simp only [strListLe, Bool.or_eq_true, Bool.and_eq_true, beq_iff_eq] at h
  rcases h with h | ⟨_, h⟩
  · rw [strLt_irrefl x] at h; cases h
  · exact h

/-- Same-name species with one "x" sighting. -/
def tieLionA : Species := ⟨"lion", 4, ⟨0, [⟨"d", "x"⟩]⟩⟩

/-- Same-name species with one "y" sighting. -/
def tieLionB : Species := ⟨"lion", 4, ⟨0, [⟨"d", "y"⟩]⟩⟩

/-- Expedition E2, first in the batch, same end date as E1. -/
def tieExpE2 : Expedition := ⟨"E2", "2025-01-01", "2025-01-05", ⟨"R", [tieLionA]⟩⟩

/-- Expedition E1, second in the batch, same end date as E2. -/
def tieExpE1 : Expedition := ⟨"E1", "2025-01-01", "2025-01-05", ⟨"R", [tieLionB]⟩⟩

/-- Batch whose two expeditions share an end date but arrive with ids out
of ascending order. -/
def tieBatch : List Expedition := [tieExpE2, tieExpE1]

/-- C8 (counterexample): the claim asserts the gathered sequence is
ordered by end date ascending with expedition id ascending as tie-break.
On a batch with equal end dates and ids out of order, the DuckDB pipeline
(`list(activities ORDER BY expedition_end_date ASC)` — no id in the sort
key) gathers E2's activity before E1's, while the spec order puts E1
first. -/
theorem C8_gather_order_counterexample :
    gatheredDuckdb tieBatch "lion" = ["x", "y"]
    ∧ gatheredSpecOrder tieBatch "lion" = ["y", "x"]
    ∧ gatheredDuckdb tieBatch "lion" ≠ gatheredSpecOrder tieBatch "lion" :=
  ⟨by decide, by decide, by decide⟩

/-- C8 (amended): the Polars pipeline gathers each species name's rows
ordered by end date ascending with expedition id ascending as a tie-break
(its three-column sort), as claimed; the DuckDB pipeline orders the rows
by end date ascending only — equal end dates stay in input batch order
(the embedding's stable sort), with no expedition-id tie-break. -/
theorem C8_gather_order_amended (batch : List Expedition) (n : String) :
    (∃ rs : List ActRow, rs.Perm (rowsForName batch n)
      ∧ rs.Sorted (fun a b =>
          strListLe [a.expedition_end_date, a.expedition_id]
            [b.expedition_end_date, b.expedition_id] = true)
      ∧ gatheredPolars batch n = rs.flatMap ActRow.activities)
    ∧ (∃ rs : List ActRow, rs.Perm (rowsForName batch n)
      ∧ rs.Sorted (fun a b =>
          strLe a.expedition_end_date b.expedition_end_date = true)
      ∧ gatheredDuckdb batch n = rs.flatMap ActRow.activities) := by
  constructor
  · refine ⟨(sortedActRowsPolars batch).filter (fun r => r.species_name == n),
      ?_, ?_, rfl⟩
    · unfold rowsForName sortedActRowsPolars
      exact (sortBy_perm _ _).filter _
    · have h1 : (sortedActRowsPolars batch).Sorted (fun a b =>
          strListLe [a.species_name, a.expedition_end_date, a.expedition_id]
            [b.species_name, b.expedition_end_date, b.expedition_id] = true) := by
        unfold sortedActRowsPolars
        apply sortBy_sorted
        · intro a b c hab hbc
          exact strListLe_trans _ _ _ hab hbc
        · intro a b
          exact strListLe_total _ _
      have h2 : ((sortedActRowsPolars batch).filter
          (fun r => r.species_name == n)).Sorted (fun a b =>
          strListLe [a.species_name, a.expedition_end_date, a.expedition_id]
            [b.species_name, b.expedition_end_date, b.expedition_id] = true) :=
        List.Pairwise.sublist (List.filter_sublist _) h1
      apply List.Pairwise.imp_of_mem ?_ h2
      intro a b ha hb hab
      have han : a.species_name = n := by simpa using (List.mem_filter.mp ha).2
      have hbn : b.species_name = n := by simpa using (List.mem_filter.mp hb).2
      rw [han, hbn] at hab
      exact strListLe_tail_of_eq_head hab
  · refine ⟨sortBy (fun a b => strLe a.expedition_end_date b.expedition_end_date)
      (rowsForName batch n), sortBy_perm _ _, ?_, rfl⟩
    apply sortBy_sorted
    · intro a b c hab hbc
      exact strLe_trans hab hbc
    · intro a b
      exact strLe_total _ _

/-! ### Claim C1 — most common activity per species -/

/-- Species with two activities tied at one occurrence each. -/
def tieActsSpecies : Species := ⟨"lion", 4, ⟨0, [⟨"d", "a"⟩, ⟨"d", "b"⟩]⟩⟩

def tieActsExp : Expedition :=
  ⟨"E1", "2025-01-01", "2025-01-02", ⟨"R", [tieActsSpecies]⟩⟩

/-- C1 (counterexample): the claim asserts exactly one output row per
species name with the tie broken lexicographically.  On a tie the Polars
implementation keeps every activity attaining the maximum count — two
rows for the one species here — while the DuckDB implementation keeps
exactly the lexicographically smallest activity. -/
theorem C1_most_common_counterexample :
    compute_most_common_activity_per_species_polars [tieActsExp]
        = [("lion", "a", 1), ("lion", "b", 1)]
    ∧ compute_most_common_activity_for_species_duckdb [tieActsExp]
        = [("lion", "a", 1)] :=
  ⟨by decide, by decide⟩

/-- C1 (amended): the DuckDB implementation satisfies the claim as stated —
exactly one output row per distinct species name with a non-empty gathered
activity sequence, whose activity attains the true maximum occurrence
count and is lexicographically smallest among the activities attaining it,
with the reported count equal to that maximum.  The Polars implementation
instead emits one row per activity attaining the maximum (exactly one row
only when the maximum is attained uniquely), each carrying the true
maximum count. -/
theorem C1_most_common_amended (batch : List Expedition) (n : String) :
    (((compute_most_common_activity_for_species_duckdb batch).filter
        (fun r => r.1 == n)).length
      = if gatheredDuckdb batch n = [] then 0 else 1)
    ∧ (∀ a c, (n, a, c) ∈ compute_most_common_activity_for_species_duckdb batch →
        a ∈ gatheredDuckdb batch n
        ∧ c = (gatheredDuckdb batch n).count a
        ∧ (∀ b, (gatheredDuckdb batch n).count b ≤ c)
        ∧ (∀ b ∈ gatheredDuckdb batch n,
            (gatheredDuckdb batch n).count b = c → strLe a b = true))
    ∧ (∀ a c, ((n, a, c) ∈ compute_most_common_activity_per_species_polars batch ↔
        (a ∈ gatheredPolars batch n
          ∧ c = (gatheredPolars batch n).count a
          ∧ ∀ b, (gatheredPolars batch n).count b ≤ c))) := by
  have hkey : ∀ (k : String) (r : String × String × Nat),
      ((pickTop (valueCounts (gatheredDuckdb batch k))).map
        (fun p => (k, p.1, p.2))) = some r → r.1 = k := by
    intro k r hf
    rcases Option.map_eq_some'.mp hf with ⟨p, _, heq⟩
    rw [← heq]
  have hnd : (sortBy (fun a b => strLe a b)
      (((speciesActivityRows batch).map ActRow.species_name).dedup)).Nodup :=
    (sortBy_perm _ _).nodup_iff.mpr (List.nodup_dedup _)
  have hmemnames : ∀ m : String, gatheredDuckdb batch m ≠ [] →
      m ∈ sortBy (fun a b => strLe a b)
        (((speciesActivityRows batch).map ActRow.species_name).dedup) := by
    intro m hm
    apply (sortBy_mem _ _ _).mpr
    apply List.mem_dedup.mpr
    have hrows : rowsForName batch m ≠ [] := by
      intro h0
      apply hm
      unfold gatheredDuckdb
      rw [h0]
      rfl
    rcases List.exists_cons_of_ne_nil hrows with ⟨r, rs, hr⟩
    have hrm : r ∈ rowsForName batch m := by
      rw [hr]; exact List.Mem.head _
    unfold rowsForName at hrm
    rcases List.mem_filter.mp hrm with ⟨hrmem, hcond⟩
    have hrn : r.species_name = m := by simpa using hcond
    rw [← hrn]
    exact List.mem_map_of_mem ActRow.species_name hrmem
  refine ⟨?_, ?_, ?_⟩
  · have hlen := length_filter_filterMap_keyed
      (fun r : String × String × Nat => r.1)
      (sortBy (fun a b => strLe a b)
        (((speciesActivityRows batch).map ActRow.species_name).dedup)) hnd
      (fun k => (pickTop (valueCounts (gatheredDuckdb batch k))).map
        (fun p => (k, p.1, p.2))) hkey n
    unfold compute_most_common_activity_for_species_duckdb
    rw [hlen]
    by_cases hgn : gatheredDuckdb batch n = []
    · rw [if_pos hgn]
      apply if_neg
      rintro ⟨-, hsome⟩
      rw [hgn] at hsome
      simp [pickTop, valueCounts] at hsome
    · rw [if_neg hgn]
      apply if_pos
      refine ⟨hmemnames n hgn, ?_⟩
      have hvc : valueCounts (gatheredDuckdb batch n) ≠ [] :=
        fun h0 => hgn ((valueCounts_eq_nil _).mp h0)
      rcases Option.isSome_iff_exists.mp ((pickTop_isSome _).mpr hvc) with ⟨p, hp⟩
      rw [hp]
      rfl
  · intro a c hmem
    unfold compute_most_common_activity_for_species_duckdb at hmem
    rcases List.mem_filterMap.mp hmem with ⟨k, _, hf⟩
    rcases Option.map_eq_some'.mp hf with ⟨p, hpk, heq⟩
    obtain rfl : k = n := congrArg Prod.fst heq
    have hpa : p.1 = a := congrArg (fun r : String × String × Nat => r.2.1) heq
    have hpc : p.2 = c := congrArg (fun r : String × String × Nat => r.2.2) heq
    subst hpa
    subst hpc
    have hpm2 : (p.1, p.2) ∈ valueCounts (gatheredDuckdb batch k) := by
      rw [Prod.mk.eta]
      exact pickTop_mem hpk
    rcases (mem_valueCounts _ _ _).mp hpm2 with ⟨hmem1, hcnt⟩
    refine ⟨hmem1, hcnt, ?_, ?_⟩
    · intro b
      by_cases hb : b ∈ gatheredDuckdb batch k
      · have hpref := pickTop_pref hpk (b, (gatheredDuckdb batch k).count b)
          ((mem_valueCounts _ _ _).mpr ⟨hb, rfl⟩)
        rcases hpref with h | ⟨h, _⟩
        · exact le_of_lt h
        · exact le_of_eq h.symm
      · rw [List.count_eq_zero_of_not_mem hb]
        exact Nat.zero_le _
    · intro b hbm hbc
      have hpref := pickTop_pref hpk (b, (gatheredDuckdb batch k).count b)
        ((mem_valueCounts _ _ _).mpr ⟨hbm, rfl⟩)
      rcases hpref with h | ⟨_, h⟩
      · rw [hbc] at h
        exact absurd h (lt_irrefl _)
      · exact h
  · intro a c
    unfold compute_most_common_activity_per_species_polars
    constructor
    · intro hmem
      rcases List.mem_flatMap.mp hmem with ⟨n0, hn0, hrow⟩
      rcases List.mem_map.mp hrow with ⟨p, hpf, heq⟩
      obtain rfl : n0 = n := congrArg Prod.fst heq
      have hpa : p.1 = a := congrArg (fun r : String × String × Nat => r.2.1) heq
      have hpc : p.2 = c := congrArg (fun r : String × String × Nat => r.2.2) heq
      subst hpa
      subst hpc
      rcases List.mem_filter.mp hpf with ⟨hpvc, hpm⟩
      have hpm2 : (p.1, p.2) ∈ valueCounts (gatheredPolars batch n0) := by
        rw [Prod.mk.eta]
        exact hpvc
      rcases (mem_valueCounts _ _ _).mp hpm2 with ⟨ha, hc⟩
      refine ⟨ha, hc, ?_⟩
      have hm : p.2
          = ((valueCounts (gatheredPolars batch n0)).map Prod.snd).foldr max 0 := by
        simpa using hpm
      intro b
      by_cases hb : b ∈ gatheredPolars batch n0
      · have hbv : (gatheredPolars batch n0).count b
            ∈ (valueCounts (gatheredPolars batch n0)).map Prod.snd :=
          List.mem_map.mpr ⟨(b, (gatheredPolars batch n0).count b),
            (mem_valueCounts _ _ _).mpr ⟨hb, rfl⟩, rfl⟩
        rw [hm]
        exact le_foldr_max _ _ hbv
      · rw [List.count_eq_zero_of_not_mem hb]
        exact Nat.zero_le _
    · rintro ⟨ha, hc, hmax⟩
      have hgne : gatheredPolars batch n ≠ [] := List.ne_nil_of_mem ha
      have hnn : n ∈ ((sortedActRowsPolars batch).map ActRow.species_name).dedup := by
        apply List.mem_dedup.mpr
        have hf : (sortedActRowsPolars batch).filter
            (fun r => r.species_name == n) ≠ [] := by
          intro h0
          apply hgne
          unfold gatheredPolars
          rw [h0]
          rfl
        rcases List.exists_cons_of_ne_nil hf with ⟨r, rs, hr⟩
        have hrm : r ∈ (sortedActRowsPolars batch).filter
            (fun r2 => r2.species_name == n) := by
          rw [hr]; exact List.Mem.head _
        rcases List.mem_filter.mp hrm with ⟨hrmem, hcond⟩
        have hrn : r.species_name = n := by simpa using hcond
        rw [← hrn]
        exact List.mem_map_of_mem ActRow.species_name hrmem
      apply List.mem_flatMap.mpr
      refine ⟨n, hnn, ?_⟩
      apply List.mem_map.mpr
      refine ⟨(a, c), ?_, rfl⟩
      apply List.mem_filter.mpr
      refine ⟨(mem_valueCounts _ _ _).mpr ⟨ha, hc⟩, ?_⟩
      simp only [beq_iff_eq]
      apply le_antisymm
      · rw [hc]
        apply le_foldr_max
        exact List.mem_map.mpr ⟨(a, (gatheredPolars batch n).count a),
          (mem_valueCounts _ _ _).mpr ⟨ha, rfl⟩, rfl⟩
      · apply foldr_max_le
        intro x hx
        rcases List.mem_map.mp hx with ⟨q, hq, rfl⟩
        have hq2 : (q.1, q.2) ∈ valueCounts (gatheredPolars batch n) := by
          rw [Prod.mk.eta]
          exact hq
        rcases (mem_valueCounts _ _ _).mp hq2 with ⟨_, hqc⟩
        rw [hqc]
        exact hmax q.1

/-- C1 (witness): the amended Polars membership at the concrete tie batch:
the row `("lion", "a", 1)` is present. -/
theorem C1_most_common_witness :
    ("lion", "a", 1) ∈ compute_most_common_activity_per_species_polars [tieActsExp] := by
  apply ((C1_most_common_amended [tieActsExp] "lion").2.2 "a" 1).mpr
  refine ⟨by decide, by decide, ?_⟩
  intro b
  exact List.nodup_iff_count_le_one.mp
    (by decide : (gatheredPolars [tieActsExp] "lion").Nodup) b

end Jungle
